import Mathlib

/-!
# Verification of `DiffWithCommand.execute` (src/commands/diffWith.ts)

Shallow embedding of the comparison-resolution command of the repository.
The command's own logic (lines 91-200 of diffWith.ts) is translated
definition-by-definition; the external collaborators (`Container.git.*`,
`GitService.shortenSha`, `GitService.isUncommitted`, `paths.basename`,
`GitUri.toRevisionUri`, the built-in diff command) are not part of the
repository's sources, so they are modelled as an abstract environment
`Env`, constrained in theorems only by the contracts the specification
states for them.

The embedding makes the observable behaviour explicit:
* the returned value (`ExecResult`): the no-op `undefined` return, a
  completed delegation, or the generic error notification;
* an event trace (`List Event`) recording every collaborator invocation
  (in invocation order, with the arguments passed), every mutation of the
  per-invocation copies of `args.lhs` / `args.rhs` / `args.showOptions`,
  the delegation to the external viewer, and the error logging/reporting.

JavaScript evaluation-order details that matter are translated exactly:
* `{ ...args, lhs: { ...args.lhs }, ... }` (lines 92-97) turns an absent
  side into a *present* object with undefined fields, so the guard of
  line 98 can only ever fire on a missing `repoPath`;
* the `await` in front of each `Container.git.resolveReference` call
  inside the `Promise.all` array (lines 104-107) suspends until that call
  completes before the next array element is evaluated, so the two
  resolution lookups are issued strictly sequentially;
* the two `getVersionedUri` calls (lines 128-131) carry no inner `await`,
  so both are issued before either result is awaited;
* reading `.fsPath` of an undefined `uri` raises a TypeError, which the
  top-level catch turns into the generic error notification.
-/

set_option maxHeartbeats 1000000

namespace DiffWith

/-- A file location; only the filesystem path is observed by this module. -/
structure Uri where
  fsPath : String
deriving DecidableEq

/-- One side of a comparison request (interface `DiffWithCommandArgsRevision`).
At the TypeScript type level `sha` and `uri` are mandatory, but the runtime
copy `{ ...args.lhs }` of an absent side produces an object whose fields are
all `undefined`, so they are modelled as options. -/
structure ArgsRevision where
  sha : Option String := none
  uri : Option Uri := none
  title : Option String := none
deriving DecidableEq

/-- The display options touched by the command (`TextDocumentShowOptions`):
only `viewColumn` and `selection` are read or written.  `selection` is the
zero-width range `(line, 0, line, 0)`. -/
structure ShowOptions where
  viewColumn : Option Int := none
  selection : Option (Nat × Nat × Nat × Nat) := none
deriving DecidableEq

/-- The request (interface `DiffWithCommandArgs`). -/
structure DiffWithCommandArgs where
  lhs : Option ArgsRevision := none
  rhs : Option ArgsRevision := none
  repoPath : Option String := none
  line : Option Nat := none
  showOptions : Option ShowOptions := none
deriving DecidableEq

/-- Result of a status lookup (`GitFile`); only its `status` field is read. -/
structure FileStatus where
  status : Char
deriving DecidableEq

/-- Modelled from the spec: `GitService.deletedOrMissingSha`, the
distinguished "missing" sentinel revision (not part of src/). -/
def deletedOrMissingSha : String := "ffffffffffffffffffffffffffffffffffffffff-"

/-- Modelled from the spec: `GlyphChars.ArrowLeftRightLong` (U+27F7), the
separator placed between the two side labels in the combined title. -/
def arrowLeftRightLong : String := "⟷"

/-- `ViewColumn.Active` of the editor API. -/
def viewColumnActive : Int := -1

/-- The external collaborators consumed by the command, as abstract
operations.  The asynchronous repository/viewer operations may fail
(`Except.error` models a rejected promise / thrown exception); the
synchronous pure helpers are modelled as total functions. -/
structure Env where
  resolveReference : String → Option String → Option Uri → Except Unit String
  getFileStatusForCommit : String → String → String → Except Unit (Option FileStatus)
  getVersionedUri : String → String → String → Except Unit (Option Uri)
  shortenSha : Option String → Option String → Option String
  isUncommitted : String → Bool
  basename : String → String
  toRevisionUri : String → String → String → Uri
  executeDiffCommand : Uri → Uri → Option String → ShowOptions → Except Unit Unit

/-- Which of the two sides an event concerns. -/
inductive SideTag
  | L
  | R
deriving DecidableEq

/-- Identity of a mutable object seen during one invocation: the three
sub-objects of the caller's request, and the three fresh copies made by
lines 92-97. -/
inductive ObjId
  | origLhs
  | origRhs
  | origShow
  | copyLhs
  | copyRhs
  | copyShow
deriving DecidableEq

/-- A mutable field of one of those objects. -/
inductive Field
  | sha
  | uri
  | title
  | viewColumn
  | selection
deriving DecidableEq

/-- Observable events of one invocation, in order of occurrence. -/
inductive Event
  | resolveCall (s : SideTag) (repo : String) (sha : Option String) (uri : Option Uri)
  | resolveRet (s : SideTag) (v : String)
  | statusCall (repo : String) (path : String) (sha : String)
  | versionedCall (s : SideTag) (repo : String) (path : String) (sha : String)
  | diffCall (l : Uri) (r : Uri) (title : Option String) (so : ShowOptions)
  | logError
  | showedError (msg : String)
  | write (o : ObjId) (f : Field)
deriving DecidableEq

/-- The value `execute` settles with: the silent no-op `undefined` return
of line 98, a completed delegation to the viewer, or the generic error
notification of the catch block. -/
inductive ExecResult
  | noop
  | diffed
  | errorShown (msg : String)
deriving DecidableEq

/-- `{ ...args.lhs }`: spreading an absent object yields an empty object,
spreading a present one yields a shallow copy with the same field values. -/
def spreadRevision : Option ArgsRevision → ArgsRevision
  | none => {}
  | some r => r

/-- `{ ...args.showOptions }`, analogously. -/
def spreadShowOptions : Option ShowOptions → ShowOptions
  | none => {}
  | some s => s

/-- `status !== undefined && status.status === 'D'` (line 120). -/
def statusIsD : Option FileStatus → Bool
  | some s => s.status == 'D'
  | none => false

/-- JavaScript `a || b` on possibly-undefined strings (line 170): an
undefined or empty left operand falls through to the right operand. -/
def jsOrString : Option String → Option String → Option String
  | some s, b => if s = "" then b else some s
  | none, b => b

/-- `` `${suffix ? ` (${suffix})` : ''}` `` (lines 161 and 164). -/
def suffixWrap (s : String) : String :=
  if s = "" then "" else " (" ++ s ++ ")"

/-- Line 133: the base form of the right suffix — the shortened working
revision with `'Working Tree'` substituted for the uncommitted marker,
defaulted to the empty string (`|| ''`). -/
def rhsSuffixBase (env : Env) (rhsSha : Option String) : String :=
  (env.shortenSha rhsSha (some "Working Tree")).getD ""

/-- Line 149: the base form of the left suffix — empty whenever the
resolved left revision is the missing sentinel. -/
def lhsSuffixBase (env : Env) (lhsSha : Option String) (lShaCur : String) : String :=
  if lShaCur ≠ deletedOrMissingSha then (env.shortenSha lhsSha none).getD "" else ""

/-- Lines 133-147: derivation of the right-side suffix.
`rhsSha` is the working revision variable (line 102/124), `rShaCur` the
current `args.rhs.sha`, `lhs`/`rhs` the two acquired content references. -/
def rhsSuffixOf (env : Env) (rhsSha : Option String) (rShaCur : String)
    (lhs rhs : Option Uri) : String :=
  let base := rhsSuffixBase env rhsSha
  if rhs = none then
    if env.isUncommitted rShaCur then "deleted"
    else if base = "" ∧ rShaCur = deletedOrMissingSha then "not in Working Tree"
    else "deleted in " ++ base
  else if lhs = none then "added in " ++ base
  else base

/-- Lines 133-158: both suffixes.  The left derivation of lines 150-158
can retroactively overwrite the right suffix (line 153), so the two are
computed together, right first. -/
def suffixPair (env : Env) (lhsSha rhsSha : Option String)
    (lShaCur rShaCur : String) (lhs rhs : Option Uri) : String × String :=
  let rhsSuffix := rhsSuffixOf env rhsSha rShaCur lhs rhs
  let lhsSuffix := lhsSuffixBase env lhsSha lShaCur
  if lhs = none ∧ rShaCur = "" then
    if rhs ≠ none then ("not in " ++ lhsSuffix, "")
    else ("deleted in " ++ lhsSuffix ++ ")", rhsSuffix)
  else (lhsSuffix, rhsSuffix)

/-- Lines 160-162: the left title, assigned only when no override was
supplied and the side has content or a non-empty suffix. -/
def lTitleOf (env : Env) (lt0 : Option String) (lu : Uri)
    (lhsRef : Option Uri) (ls : String) : Option String :=
  if lt0 = none ∧ (lhsRef ≠ none ∨ ls ≠ "") then
    some (env.basename lu.fsPath ++ suffixWrap ls)
  else lt0

/-- Lines 163-165: the right title, assigned whenever no override was
supplied. -/
def rTitleOf (env : Env) (rt0 : Option String) (ru : Uri) (rs : String) :
    Option String :=
  if rt0 = none then some (env.basename ru.fsPath ++ suffixWrap rs) else rt0

/-- Lines 167-170: the combined title. -/
def combineTitles : Option String → Option String → Option String
  | some l, some r => some (l ++ " " ++ arrowLeftRightLong ++ " " ++ r)
  | l, r => jsOrString l r

/-- Lines 172-182: finalized display options (the line-172 check is dead —
after the line-96 spread the copy is always a defined object). -/
def soFinal (so0 : ShowOptions) (lineOpt : Option Nat) : ShowOptions :=
  { viewColumn := if so0.viewColumn = none then some viewColumnActive else so0.viewColumn
    selection :=
      match lineOpt with
      | some n => if n ≠ 0 then some (n, 0, n, 0) else so0.selection
      | none => so0.selection }

/-- Lines 186-188: the left argument handed to the viewer — the acquired
reference, or the placeholder built from the missing sentinel. -/
def diffArgL (env : Env) (repo : String) (lu : Uri) (lhsRef : Option Uri) : Uri :=
  match lhsRef with
  | some u => u
  | none => env.toRevisionUri deletedOrMissingSha lu.fsPath repo

/-- Lines 189-191: the right argument handed to the viewer. -/
def diffArgR (env : Env) (repo : String) (ru : Uri) (rhsRef : Option Uri) : Uri :=
  match rhsRef with
  | some u => u
  | none => env.toRevisionUri deletedOrMissingSha ru.fsPath repo

/-- A single optional event: `[e]` when the condition holds, else `[]`. -/
def onWhen (c : Prop) [Decidable c] (e : Event) : List Event :=
  if c then [e] else []

/-- The copy-object mutations performed by lines 160-182, in order. -/
def finishWrites (lt0 rt0 : Option String) (lhsRef : Option Uri) (ls : String)
    (so0 : ShowOptions) (lineOpt : Option Nat) : List Event :=
  onWhen (lt0 = none ∧ (lhsRef ≠ none ∨ ls ≠ "")) (Event.write ObjId.copyLhs Field.title) ++
  onWhen (rt0 = none) (Event.write ObjId.copyRhs Field.title) ++
  onWhen (so0.viewColumn = none) (Event.write ObjId.copyShow Field.viewColumn) ++
  (match lineOpt with
   | some n => if n ≠ 0 then [Event.write ObjId.copyShow Field.selection] else []
   | none => [])

/-- Lines 133-194: the tail of the `try` block, from suffix derivation to
the delegation to the external viewer.
Parameters: the titles supplied on input, the two locations, the resolved
left revision `lSha`, the two working revision variables `lhsShaV`/`rVar`,
the current right revision `rCur` (after classification), and the two
acquired content references. -/
def execFinish (env : Env) (repo : String) (lt0 rt0 : Option String)
    (lu ru : Uri) (lSha : String) (lhsShaV rVar : Option String)
    (rCur : String) (lhsRef rhsRef : Option Uri)
    (lineOpt : Option Nat) (so0 : ShowOptions) :
    Except Unit ExecResult × List Event :=
  let sp := suffixPair env lhsShaV rVar lSha rCur lhsRef rhsRef
  let title := combineTitles (lTitleOf env lt0 lu lhsRef sp.1) (rTitleOf env rt0 ru sp.2)
  let soF := soFinal so0 lineOpt
  let lArg := diffArgL env repo lu lhsRef
  let rArg := diffArgR env repo ru rhsRef
  let tr := finishWrites lt0 rt0 lhsRef sp.1 so0 lineOpt ++
    [Event.diffCall lArg rArg title soF]
  ((match env.executeDiffCommand lArg rArg title soF with
    | Except.error e => Except.error e
    | Except.ok _ => Except.ok ExecResult.diffed), tr)

/-- Lines 113-126: existence classification of the right side.
When the resolved `args.rhs.sha` (`rSha`) is non-empty and not the missing
sentinel, the status of the file at that revision is looked up (reading
`args.rhs.uri.fsPath`, a TypeError when the uri is undefined); a `'D'`
status overwrites `args.rhs.sha` with the missing sentinel, otherwise the
working revision variable `rhsSha` is updated to the resolved value.
Returns the new `args.rhs.sha` and the new `rhsSha` variable. -/
def classifyRhs (env : Env) (repo : String) (ruri : Option Uri)
    (rSha : String) (rVar0 : Option String) :
    Except Unit (String × Option String) × List Event :=
  if rSha ≠ "" ∧ rSha ≠ deletedOrMissingSha then
    match ruri with
    | none => (Except.error (), [])
    | some u =>
      match env.getFileStatusForCommit repo u.fsPath rSha with
      | Except.error e => (Except.error e, [Event.statusCall repo u.fsPath rSha])
      | Except.ok status =>
        if statusIsD status then
          (Except.ok (deletedOrMissingSha, rVar0),
           [Event.statusCall repo u.fsPath rSha, Event.write ObjId.copyRhs Field.sha])
        else
          (Except.ok (rSha, some rSha), [Event.statusCall repo u.fsPath rSha])
  else (Except.ok (rSha, rVar0), [])

/-- Lines 100-194: the body of the `try` block, operating on the fresh
copies `lhs0`/`rhs0`/`so0` made by lines 92-97.  An `Except.error` result
is an exception escaping to the catch block.

The two `resolveReference` calls are issued strictly sequentially: the
`await` inside the `Promise.all` array (lines 105-106) completes the left
lookup before the right one is even invoked.  The two `getVersionedUri`
calls (lines 129-130) are both issued before either result is awaited. -/
def executeTry (env : Env) (repo : String) (lhs0 rhs0 : ArgsRevision)
    (so0 : ShowOptions) (lineOpt : Option Nat) :
    Except Unit ExecResult × List Event :=
  let t0 := [Event.resolveCall SideTag.L repo lhs0.sha lhs0.uri]
  match env.resolveReference repo lhs0.sha lhs0.uri with
  | Except.error e => (Except.error e, t0)
  | Except.ok lSha =>
    let t1 := t0 ++ [Event.resolveRet SideTag.L lSha,
      Event.resolveCall SideTag.R repo rhs0.sha rhs0.uri]
    match env.resolveReference repo rhs0.sha rhs0.uri with
    | Except.error e => (Except.error e, t1)
    | Except.ok rSha =>
      let t2 := t1 ++ [Event.resolveRet SideTag.R rSha,
        Event.write ObjId.copyLhs Field.sha, Event.write ObjId.copyRhs Field.sha]
      let lhsShaV := if lSha ≠ deletedOrMissingSha then some lSha else lhs0.sha
      match classifyRhs env repo rhs0.uri rSha rhs0.sha with
      | (Except.error e, ct) => (Except.error e, t2 ++ ct)
      | (Except.ok (rCur, rVar), ct) =>
        let t3 := t2 ++ ct
        match lhs0.uri with
        | none => (Except.error (), t3)
        | some lu =>
          let t4 := t3 ++ [Event.versionedCall SideTag.L repo lu.fsPath lSha]
          match rhs0.uri with
          | none => (Except.error (), t4)
          | some ru =>
            let t5 := t4 ++ [Event.versionedCall SideTag.R repo ru.fsPath rCur]
            match env.getVersionedUri repo lu.fsPath lSha with
            | Except.error e => (Except.error e, t5)
            | Except.ok lhsRef =>
              match env.getVersionedUri repo ru.fsPath rCur with
              | Except.error e => (Except.error e, t5)
              | Except.ok rhsRef =>
                let fin := execFinish env repo lhs0.title rhs0.title lu ru lSha
                  lhsShaV rVar rCur lhsRef rhsRef lineOpt so0
                (fin.1, t5 ++ fin.2)

/-- Lines 91-200: the whole of `DiffWithCommand.execute`.
Lines 92-97 first take shallow copies of `args` and of its `lhs`, `rhs`
and `showOptions` sub-objects; an absent sub-object becomes a present
empty object, so the line-98 guard on `lhs`/`rhs` can never fire — only a
missing `repoPath` produces the no-op return.  Any exception of the body
is caught, logged, and surfaced as the generic notification. -/
def execute (env : Env) (args0 : DiffWithCommandArgs) : ExecResult × List Event :=
  let lhs0 := spreadRevision args0.lhs
  let rhs0 := spreadRevision args0.rhs
  let so0 := spreadShowOptions args0.showOptions
  let args1 : DiffWithCommandArgs :=
    { args0 with lhs := some lhs0, rhs := some rhs0, showOptions := some so0 }
  if args1.repoPath = none ∨ args1.lhs = none ∨ args1.rhs = none then
    (ExecResult.noop, [])
  else
    match args1.repoPath with
    | none => (ExecResult.noop, [])
    | some repo =>
      match executeTry env repo lhs0 rhs0 so0 args1.line with
      | (Except.ok r, tr) => (r, tr)
      | (Except.error _, tr) =>
        (ExecResult.errorShown "Unable to open compare",
         tr ++ [Event.logError, Event.showedError "Unable to open compare"])

/-! ## Trace predicates and structural lemmas -/

/-- Events the `try`-block body can emit: collaborator calls, the
delegation, and writes that target only the per-invocation copies —
`sha`/`title` on the side copies, `viewColumn`/`selection` on the
show-options copy.  Never an error-handling event. -/
def tame : Event → Bool
  | Event.write o f =>
    ((o == ObjId.copyLhs || o == ObjId.copyRhs) && (f == Field.sha || f == Field.title)) ||
    (o == ObjId.copyShow && (f == Field.viewColumn || f == Field.selection))
  | Event.logError => false
  | Event.showedError _ => false
  | _ => true

/-- C8's per-event property: a write never targets a `uri` field, and a
write to a side copy only ever targets `sha` or `title`. -/
def writeShaTitleOnly : Event → Bool
  | Event.write _ Field.uri => false
  | Event.write ObjId.copyLhs f => f == Field.sha || f == Field.title
  | Event.write ObjId.copyRhs f => f == Field.sha || f == Field.title
  | _ => true

/-- C9's per-event property: no write ever targets one of the caller's
original objects. -/
def noOrigWrite : Event → Bool
  | Event.write ObjId.origLhs _ => false
  | Event.write ObjId.origRhs _ => false
  | Event.write ObjId.origShow _ => false
  | _ => true

/-- C7's per-event property: not an error-handling event. -/
def notFailure : Event → Bool
  | Event.logError => false
  | Event.showedError _ => false
  | _ => true

/-- The resolution-lookup events of a trace, in order. -/
def resolveEvents (tr : List Event) : List Event :=
  tr.filter fun e =>
    match e with
    | Event.resolveCall _ _ _ _ => true
    | Event.resolveRet _ _ => true
    | _ => false

/-! ### Concrete instances used to exercise the theorems -/

def uriA : Uri := ⟨"/repo/a.ts"⟩

def uriB : Uri := ⟨"/repo/b.ts"⟩

/-- A benign concrete environment: references resolve to themselves, files
are never reported deleted, content exists at every revision except the
missing sentinel, and the viewer call succeeds. -/
def envBase : Env where
  resolveReference := fun _ sha _ => Except.ok (sha.getD "")
  getFileStatusForCommit := fun _ _ _ => Except.ok none
  getVersionedUri := fun _ p sha =>
    Except.ok (if sha = deletedOrMissingSha then none else some ⟨p ++ "@" ++ sha⟩)
  shortenSha := fun sha _ => sha
  isUncommitted := fun _ => false
  basename := fun p => p
  toRevisionUri := fun sha p repo => ⟨repo ++ "|" ++ sha ++ "|" ++ p⟩
  executeDiffCommand := fun _ _ _ _ => Except.ok ()

/-- A request whose `lhs` is missing while `repoPath` and `rhs` are present. -/
def argsNoLhs : DiffWithCommandArgs :=
  { rhs := some { sha := some "abc", uri := some uriA }, repoPath := some "/repo" }

/-- A request with both sides present and symbolic revision markers
(`HEAD` against the working tree). -/
def argsBothSides : DiffWithCommandArgs :=
  { lhs := some { sha := some "HEAD", uri := some uriA }
    rhs := some { sha := some "", uri := some uriA }
    repoPath := some "/repo" }

/-- Environment for the right-side-deleted scenario: the status lookup
reports the file deleted. -/
def envDeleted : Env :=
  { envBase with getFileStatusForCommit := fun _ _ _ => Except.ok (some ⟨'D'⟩) }

/-- Environment in which the left side's content is absent while content
exists for the working tree (empty revision) on the right side. -/
def envLeftAbsent : Env :=
  { envBase with
    getVersionedUri := fun _ p sha =>
      Except.ok (if sha = deletedOrMissingSha ∨ p = uriA.fsPath then none
        else some ⟨p ++ "@" ++ sha⟩) }

/-- Left side of the deleted-on-the-right scenario. -/
def l0W : ArgsRevision := { sha := some "lsha", uri := some uriA }

/-- Right side of the deleted-on-the-right scenario. -/
def r0W : ArgsRevision := { sha := some "rsha", uri := some uriB }

/-- Left side of the left-content-absent scenario. -/
def l0A : ArgsRevision := { sha := some "lsha", uri := some uriA }

/-- Right side of the left-content-absent scenario: the empty working-copy
marker. -/
def r0A : ArgsRevision := { sha := some "", uri := some uriB }

theorem tame_imp_writeShaTitleOnly : ∀ e, tame e = true → writeShaTitleOnly e = true := by
  intro e he
  cases e with
  | write o f => cases o <;> cases f <;> simp_all [tame, writeShaTitleOnly]
  | _ => simp_all [tame, writeShaTitleOnly]

theorem tame_imp_noOrigWrite : ∀ e, tame e = true → noOrigWrite e = true := by
  intro e he
  cases e with
  | write o f => cases o <;> cases f <;> simp_all [tame, noOrigWrite]
  | _ => simp_all [tame, noOrigWrite]

theorem tame_imp_notFailure : ∀ e, tame e = true → notFailure e = true := by
  intro e he
  cases e with
  | write o f => simp [notFailure]
  | _ => simp_all [tame, notFailure]

theorem all_imp {p q : Event → Bool} (h : ∀ e, p e = true → q e = true)
    (l : List Event) (hl : l.all p = true) : l.all q = true := by
  rw [List.all_eq_true] at hl ⊢
  exact fun e he => h e (hl e he)

theorem onWhen_tame (c : Prop) [Decidable c] (e : Event) (he : tame e = true) :
    (onWhen c e).all tame = true := by
  unfold onWhen
  split <;> simp [he]

theorem finishWrites_tame (lt0 rt0 : Option String) (lhsRef : Option Uri)
    (ls : String) (so0 : ShowOptions) (lineOpt : Option Nat) :
    (finishWrites lt0 rt0 lhsRef ls so0 lineOpt).all tame = true := by
  unfold finishWrites
  simp only [List.all_append, Bool.and_eq_true]
  refine ⟨⟨⟨onWhen_tame _ _ (by decide), onWhen_tame _ _ (by decide)⟩,
    onWhen_tame _ _ (by decide)⟩, ?_⟩
  cases lineOpt with
  | none => simp
  | some n => split <;> simp [tame]

theorem execFinish_tame (env : Env) (repo : String) (lt0 rt0 : Option String)
    (lu ru : Uri) (lSha : String) (lhsShaV rVar : Option String)
    (rCur : String) (lhsRef rhsRef : Option Uri)
    (lineOpt : Option Nat) (so0 : ShowOptions) :
    ((execFinish env repo lt0 rt0 lu ru lSha lhsShaV rVar rCur lhsRef rhsRef
      lineOpt so0).2).all tame = true := by
  show ((finishWrites lt0 rt0 lhsRef _ so0 lineOpt ++ [_]).all tame) = true
  simp only [List.all_append, Bool.and_eq_true]
  exact ⟨finishWrites_tame _ _ _ _ _ _, by simp [tame]⟩

theorem classifyRhs_tame (env : Env) (repo : String) (ruri : Option Uri)
    (rSha : String) (rVar0 : Option String) :
    ((classifyRhs env repo ruri rSha rVar0).2).all tame = true := by
  unfold classifyRhs
  split
  · cases ruri with
    | none => simp
    | some u =>
      cases h : env.getFileStatusForCommit repo u.fsPath rSha with
      | error e => simp [h, tame]
      | ok status => simp only [h]; split <;> simp [tame]
  · simp

theorem executeTry_tame (env : Env) (repo : String) (lhs0 rhs0 : ArgsRevision)
    (so0 : ShowOptions) (lineOpt : Option Nat) :
    ((executeTry env repo lhs0 rhs0 so0 lineOpt).2).all tame = true := by
  unfold executeTry
  cases h1 : env.resolveReference repo lhs0.sha lhs0.uri with
  | error e => simp [tame]
  | ok lSha =>
    cases h2 : env.resolveReference repo rhs0.sha rhs0.uri with
    | error e => simp [tame]
    | ok rSha =>
      have hct := classifyRhs_tame env repo rhs0.uri rSha rhs0.sha
      cases h3 : classifyRhs env repo rhs0.uri rSha rhs0.sha with
      | mk cres ct =>
        rw [h3] at hct
        simp only at hct
        cases cres with
        | error e => simp_all [tame, List.all_append]
        | ok p =>
          cases p with
          | mk rCur rVar =>
            cases hlu : lhs0.uri with
            | none => simp_all [tame, List.all_append]
            | some lu =>
              cases hru : rhs0.uri with
              | none => simp_all [tame, List.all_append]
              | some ru =>
                cases h4 : env.getVersionedUri repo lu.fsPath lSha with
                | error e => simp_all [tame, List.all_append]
                | ok lhsRef =>
                  cases h5 : env.getVersionedUri repo ru.fsPath rCur with
                  | error e => simp_all [tame, List.all_append]
                  | ok rhsRef =>
                    have hf := execFinish_tame env repo lhs0.title rhs0.title lu ru
                      lSha (if lSha ≠ deletedOrMissingSha then some lSha else lhs0.sha)
                      rVar rCur lhsRef rhsRef lineOpt so0
                    simp_all [tame, List.all_append]

theorem execute_eq_noop (env : Env) (args0 : DiffWithCommandArgs)
    (h : args0.repoPath = none) : execute env args0 = (ExecResult.noop, []) := by
  simp [execute, h]

theorem execute_eq_of_try (env : Env) (args0 : DiffWithCommandArgs) (repo : String)
    (h : args0.repoPath = some repo) :
    execute env args0 =
      (match executeTry env repo (spreadRevision args0.lhs) (spreadRevision args0.rhs)
          (spreadShowOptions args0.showOptions) args0.line with
        | (Except.ok r, tr) => (r, tr)
        | (Except.error _, tr) =>
          (ExecResult.errorShown "Unable to open compare",
           tr ++ [Event.logError, Event.showedError "Unable to open compare"])) := by
  simp [execute, h]

theorem execFinish_fst_ok (env : Env) (repo : String) (lt0 rt0 : Option String)
    (lu ru : Uri) (lSha : String) (lhsShaV rVar : Option String)
    (rCur : String) (lhsRef rhsRef : Option Uri)
    (lineOpt : Option Nat) (so0 : ShowOptions) (r : ExecResult)
    (h : (execFinish env repo lt0 rt0 lu ru lSha lhsShaV rVar rCur lhsRef rhsRef
      lineOpt so0).1 = Except.ok r) : r = ExecResult.diffed := by
  unfold execFinish at h
  simp only at h
  split at h
  · exact absurd h (by simp)
  · simpa using h.symm

theorem executeTry_fst_ok (env : Env) (repo : String) (lhs0 rhs0 : ArgsRevision)
    (so0 : ShowOptions) (lineOpt : Option Nat) (r : ExecResult)
    (h : (executeTry env repo lhs0 rhs0 so0 lineOpt).1 = Except.ok r) :
    r = ExecResult.diffed := by
  unfold executeTry at h
  cases h1 : env.resolveReference repo lhs0.sha lhs0.uri with
  | error e => simp [h1] at h
  | ok lSha =>
    simp only [h1] at h
    cases h2 : env.resolveReference repo rhs0.sha rhs0.uri with
    | error e => simp [h2] at h
    | ok rSha =>
      simp only [h2] at h
      cases h3 : classifyRhs env repo rhs0.uri rSha rhs0.sha with
      | mk cres ct =>
        simp only [h3] at h
        cases cres with
        | error e => simp at h
        | ok p =>
          cases p with
          | mk rCur rVar =>
            cases hlu : lhs0.uri with
            | none => simp [hlu] at h
            | some lu =>
              simp only [hlu] at h
              cases hru : rhs0.uri with
              | none => simp [hru] at h
              | some ru =>
                simp only [hru] at h
                cases h4 : env.getVersionedUri repo lu.fsPath lSha with
                | error e => simp [h4] at h
                | ok lhsRef =>
                  simp only [h4] at h
                  cases h5 : env.getVersionedUri repo ru.fsPath rCur with
                  | error e => simp [h5] at h
                  | ok rhsRef =>
                    simp only [h5] at h
                    exact execFinish_fst_ok env repo lhs0.title rhs0.title lu ru lSha
                      _ rVar rCur lhsRef rhsRef lineOpt so0 r h

/-- The trace of the `try`-block tail: the title/show-options writes
followed by the delegation event. -/
theorem execFinish_snd (env : Env) (repo : String) (lt0 rt0 : Option String)
    (lu ru : Uri) (lSha : String) (lhsShaV rVar : Option String)
    (rCur : String) (lhsRef rhsRef : Option Uri)
    (lineOpt : Option Nat) (so0 : ShowOptions) :
    (execFinish env repo lt0 rt0 lu ru lSha lhsShaV rVar rCur lhsRef rhsRef
      lineOpt so0).2 =
    finishWrites lt0 rt0 lhsRef
      (suffixPair env lhsShaV rVar lSha rCur lhsRef rhsRef).1 so0 lineOpt ++
    [Event.diffCall (diffArgL env repo lu lhsRef) (diffArgR env repo ru rhsRef)
      (combineTitles
        (lTitleOf env lt0 lu lhsRef (suffixPair env lhsShaV rVar lSha rCur lhsRef rhsRef).1)
        (rTitleOf env rt0 ru (suffixPair env lhsShaV rVar lSha rCur lhsRef rhsRef).2))
      (soFinal so0 lineOpt)] := rfl

/-- On a run in which every collaborator lookup settles, `executeTry` is
the resolution/classification/acquisition trace followed by the tail
`execFinish`. -/
theorem executeTry_success_eq (env : Env) (repo : String) (lhs0 rhs0 : ArgsRevision)
    (so0 : ShowOptions) (lineOpt : Option Nat) (lu ru : Uri) (lSha rSha : String)
    (rCur : String) (rVar : Option String) (ct : List Event) (lhsRef rhsRef : Option Uri)
    (hlu : lhs0.uri = some lu) (hru : rhs0.uri = some ru)
    (h1 : env.resolveReference repo lhs0.sha lhs0.uri = Except.ok lSha)
    (h2 : env.resolveReference repo rhs0.sha rhs0.uri = Except.ok rSha)
    (hc : classifyRhs env repo rhs0.uri rSha rhs0.sha = (Except.ok (rCur, rVar), ct))
    (h3 : env.getVersionedUri repo lu.fsPath lSha = Except.ok lhsRef)
    (h4 : env.getVersionedUri repo ru.fsPath rCur = Except.ok rhsRef) :
    executeTry env repo lhs0 rhs0 so0 lineOpt =
      ((execFinish env repo lhs0.title rhs0.title lu ru lSha
          (if lSha ≠ deletedOrMissingSha then some lSha else lhs0.sha)
          rVar rCur lhsRef rhsRef lineOpt so0).1,
        ([Event.resolveCall SideTag.L repo lhs0.sha lhs0.uri,
          Event.resolveRet SideTag.L lSha,
          Event.resolveCall SideTag.R repo rhs0.sha rhs0.uri,
          Event.resolveRet SideTag.R rSha,
          Event.write ObjId.copyLhs Field.sha, Event.write ObjId.copyRhs Field.sha] ++
         ct ++
         [Event.versionedCall SideTag.L repo lu.fsPath lSha,
          Event.versionedCall SideTag.R repo ru.fsPath rCur]) ++
        (execFinish env repo lhs0.title rhs0.title lu ru lSha
          (if lSha ≠ deletedOrMissingSha then some lSha else lhs0.sha)
          rVar rCur lhsRef rhsRef lineOpt so0).2) := by
  rw [hlu] at h1
  rw [hru] at h2 hc
  unfold executeTry
  simp only [h1, h2, hc, hlu, hru, h3, h4, List.append_assoc, List.cons_append,
    List.nil_append]

/-- Every event of `executeTry`'s trace is an event of `execute`'s trace
(the catch block only appends). -/
theorem execute_mem_of_try (env : Env) (l0 r0 : ArgsRevision) (repo : String)
    (lineOpt : Option Nat) (so0 : ShowOptions) (e : Event)
    (he : e ∈ (executeTry env repo l0 r0 so0 lineOpt).2) :
    e ∈ (execute env ⟨some l0, some r0, some repo, lineOpt, some so0⟩).2 := by
  rw [execute_eq_of_try env _ repo rfl]
  show e ∈ (match executeTry env repo l0 r0 so0 lineOpt with
    | (Except.ok r, tr) => (r, tr)
    | (Except.error _, tr) =>
      (ExecResult.errorShown "Unable to open compare",
       tr ++ [Event.logError, Event.showedError "Unable to open compare"])).2
  cases h : executeTry env repo l0 r0 so0 lineOpt with
  | mk res tr =>
    rw [h] at he
    cases res with
    | ok r => simpa using he
    | error u => simp only; exact List.mem_append_left _ he

theorem diffArgL_eq_getD (env : Env) (repo : String) (lu : Uri) (r : Option Uri) :
    diffArgL env repo lu r = r.getD (env.toRevisionUri deletedOrMissingSha lu.fsPath repo) := by
  cases r <;> rfl

theorem diffArgR_eq_getD (env : Env) (repo : String) (ru : Uri) (r : Option Uri) :
    diffArgR env repo ru r = r.getD (env.toRevisionUri deletedOrMissingSha ru.fsPath repo) := by
  cases r <;> rfl

/-- The delegation event always sits at the end of the tail's trace. -/
theorem execFinish_mem_diffCall (env : Env) (repo : String) (lt0 rt0 : Option String)
    (lu ru : Uri) (lSha : String) (lhsShaV rVar : Option String)
    (rCur : String) (lhsRef rhsRef : Option Uri)
    (lineOpt : Option Nat) (so0 : ShowOptions) :
    Event.diffCall (diffArgL env repo lu lhsRef) (diffArgR env repo ru rhsRef)
      (combineTitles
        (lTitleOf env lt0 lu lhsRef (suffixPair env lhsShaV rVar lSha rCur lhsRef rhsRef).1)
        (rTitleOf env rt0 ru (suffixPair env lhsShaV rVar lSha rCur lhsRef rhsRef).2))
      (soFinal so0 lineOpt) ∈
    (execFinish env repo lt0 rt0 lu ru lSha lhsShaV rVar rCur lhsRef rhsRef
      lineOpt so0).2 := by
  rw [execFinish_snd]
  exact List.mem_append_right _ (by simp)

/-- On a success path, every event of the tail's trace occurs in
`executeTry`'s trace. -/
theorem executeTry_mem_of_finish (env : Env) (repo : String) (lhs0 rhs0 : ArgsRevision)
    (so0 : ShowOptions) (lineOpt : Option Nat) (lu ru : Uri) (lSha rSha : String)
    (rCur : String) (rVar : Option String) (ct : List Event) (lhsRef rhsRef : Option Uri)
    (hlu : lhs0.uri = some lu) (hru : rhs0.uri = some ru)
    (h1 : env.resolveReference repo lhs0.sha lhs0.uri = Except.ok lSha)
    (h2 : env.resolveReference repo rhs0.sha rhs0.uri = Except.ok rSha)
    (hc : classifyRhs env repo rhs0.uri rSha rhs0.sha = (Except.ok (rCur, rVar), ct))
    (h3 : env.getVersionedUri repo lu.fsPath lSha = Except.ok lhsRef)
    (h4 : env.getVersionedUri repo ru.fsPath rCur = Except.ok rhsRef)
    (e : Event)
    (he : e ∈ (execFinish env repo lhs0.title rhs0.title lu ru lSha
      (if lSha ≠ deletedOrMissingSha then some lSha else lhs0.sha)
      rVar rCur lhsRef rhsRef lineOpt so0).2) :
    e ∈ (executeTry env repo lhs0 rhs0 so0 lineOpt).2 := by
  have hEq := executeTry_success_eq env repo lhs0 rhs0 so0 lineOpt lu ru lSha rSha
    rCur rVar ct lhsRef rhsRef hlu hru h1 h2 hc h3 h4
  rw [hEq]
  exact List.mem_append_right _ he

/-- On a success path, the right-side content acquisition is invoked with
the post-classification right revision. -/
theorem executeTry_mem_versionedR (env : Env) (repo : String) (lhs0 rhs0 : ArgsRevision)
    (so0 : ShowOptions) (lineOpt : Option Nat) (lu ru : Uri) (lSha rSha : String)
    (rCur : String) (rVar : Option String) (ct : List Event) (lhsRef rhsRef : Option Uri)
    (hlu : lhs0.uri = some lu) (hru : rhs0.uri = some ru)
    (h1 : env.resolveReference repo lhs0.sha lhs0.uri = Except.ok lSha)
    (h2 : env.resolveReference repo rhs0.sha rhs0.uri = Except.ok rSha)
    (hc : classifyRhs env repo rhs0.uri rSha rhs0.sha = (Except.ok (rCur, rVar), ct))
    (h3 : env.getVersionedUri repo lu.fsPath lSha = Except.ok lhsRef)
    (h4 : env.getVersionedUri repo ru.fsPath rCur = Except.ok rhsRef) :
    Event.versionedCall SideTag.R repo ru.fsPath rCur ∈
      (executeTry env repo lhs0 rhs0 so0 lineOpt).2 := by
  have hEq := executeTry_success_eq env repo lhs0 rhs0 so0 lineOpt lu ru lSha rSha
    rCur rVar ct lhsRef rhsRef hlu hru h1 h2 hc h3 h4
  rw [hEq]
  simp

/-! ## The claims -/

/-- C1.  The claim states that a request missing `repoPath`, `lhs` or `rhs`
is a complete no-op: `execute` returns `undefined` and no collaborator is
invoked.  The code violates this for a missing `lhs` (or `rhs`): the copy
step of lines 92-97 replaces the absent side with a present empty object
before the line-98 guard runs, so the guard's `args.lhs === undefined` and
`args.rhs === undefined` tests can never fire.  On the concrete request
`{ repoPath: "/repo", rhs: { sha: "abc", uri: "/repo/a.ts" } }` (no `lhs`)
the command invokes `resolveReference` on both sides and
`getFileStatusForCommit` on the right side, then crashes on
`args.lhs.uri.fsPath` and surfaces the generic error notification instead
of returning `undefined`. -/
theorem c1_missing_lhs_invokes_collaborators :
    execute envBase argsNoLhs =
      (ExecResult.errorShown "Unable to open compare",
       [Event.resolveCall SideTag.L "/repo" none none,
        Event.resolveRet SideTag.L "",
        Event.resolveCall SideTag.R "/repo" (some "abc") (some uriA),
        Event.resolveRet SideTag.R "abc",
        Event.write ObjId.copyLhs Field.sha,
        Event.write ObjId.copyRhs Field.sha,
        Event.statusCall "/repo" "/repo/a.ts" "abc",
        Event.logError,
        Event.showedError "Unable to open compare"]) ∧
    (execute envBase argsNoLhs).1 ≠ ExecResult.noop ∧
    Event.resolveCall SideTag.L "/repo" none none ∈ (execute envBase argsNoLhs).2 := by
  refine ⟨by decide, by decide, by decide⟩

/-- C2.  The claim states that the two `resolveReference` lookups run
concurrently — both in flight before either completes.  In the code the
`await` in front of each call inside the `Promise.all` array (lines
105-106) completes the left lookup before the right call is even made, so
the lookups are strictly sequential.  On a request with both sides
requiring resolution (`HEAD` on the left, the working-tree marker on the
right), the resolution events of the trace are: left call, left
completion, right call, right completion — the left lookup completes
before the right one starts, contradicting the required overlap. -/
theorem c2_resolution_lookups_are_sequential :
    resolveEvents (execute envBase argsBothSides).2 =
      [Event.resolveCall SideTag.L "/repo" (some "HEAD") (some uriA),
       Event.resolveRet SideTag.L "HEAD",
       Event.resolveCall SideTag.R "/repo" (some "") (some uriA),
       Event.resolveRet SideTag.R ""] := by
  decide

/-- C4.  Lines 150-154: whenever the left content reference is absent, the
current right revision is the empty working-copy marker, and the right
content reference is present, the left suffix becomes `"not in "` followed
by the shortened left working revision, and the right suffix — whatever
was derived for it by lines 133-147 — is retroactively forced to the empty
string. -/
theorem c4_left_not_in_forces_right_suffix_empty (env : Env)
    (lhsSha rhsSha : Option String) (lShaCur : String) (u : Uri) :
    suffixPair env lhsSha rhsSha lShaCur "" none (some u) =
      ("not in " ++ lhsSuffixBase env lhsSha lShaCur, "") := by
  simp [suffixPair]

/-- C5.  Lines 150, 155-157: whenever the left content reference is
absent, the current right revision is the empty working-copy marker, and
the right content reference is also absent, the left suffix is
`"deleted in "` plus the shortened left working revision plus a trailing
`")"` — the unmatched parenthesis of the source template is preserved
verbatim. -/
theorem c5_left_deleted_suffix_trailing_paren (env : Env)
    (lhsSha rhsSha : Option String) (lShaCur : String) :
    (suffixPair env lhsSha rhsSha lShaCur "" none none).1 =
      "deleted in " ++ lhsSuffixBase env lhsSha lShaCur ++ ")" := by
  simp [suffixPair]

/-- C7.  Every exception raised inside the `try` block — by resolution,
classification, acquisition, or the delegation itself — is caught at the
top level and surfaced as the single generic "Unable to open compare"
notification after being logged; when that happens the trace ends with
the log/notify pair, so nothing (in particular no directive) is delegated
to the viewer after the failure, and on a successful run no
error-handling event occurs at all: the operation is all-or-nothing. -/
theorem c7_exceptions_caught_all_or_nothing (env : Env)
    (args0 : DiffWithCommandArgs) :
    match execute env args0 with
    | (ExecResult.noop, tr) => tr = []
    | (ExecResult.diffed, tr) => tr.all notFailure = true
    | (ExecResult.errorShown m, tr) =>
      m = "Unable to open compare" ∧
      ∃ t, tr = t ++ [Event.logError, Event.showedError "Unable to open compare"] ∧
        t.all notFailure = true := by
  cases h : args0.repoPath with
  | none => rw [execute_eq_noop env args0 h]
  | some repo =>
    rw [execute_eq_of_try env args0 repo h]
    cases hE : executeTry env repo (spreadRevision args0.lhs) (spreadRevision args0.rhs)
        (spreadShowOptions args0.showOptions) args0.line with
    | mk res tr =>
      have htame := executeTry_tame env repo (spreadRevision args0.lhs)
        (spreadRevision args0.rhs) (spreadShowOptions args0.showOptions) args0.line
      rw [hE] at htame
      simp only at htame
      cases res with
      | ok r =>
        have hr : r = ExecResult.diffed :=
          executeTry_fst_ok env repo _ _ _ _ r (by rw [hE])
        subst hr
        simpa using all_imp tame_imp_notFailure tr htame
      | error u =>
        exact ⟨rfl, tr, rfl, all_imp tame_imp_notFailure tr htame⟩

/-- C8.  No write in any run ever targets a `uri` field, and every write
that targets one of the two side copies targets its `sha` or its `title`
field: each side's location is never reassigned between entry and
delegation; only the revision and the label of the two sides are mutated. -/
theorem c8_uri_never_reassigned (env : Env) (args0 : DiffWithCommandArgs) :
    ((execute env args0).2).all writeShaTitleOnly = true := by
  cases h : args0.repoPath with
  | none => rw [execute_eq_noop env args0 h]; rfl
  | some repo =>
    rw [execute_eq_of_try env args0 repo h]
    cases hE : executeTry env repo (spreadRevision args0.lhs) (spreadRevision args0.rhs)
        (spreadShowOptions args0.showOptions) args0.line with
    | mk res tr =>
      have htame := executeTry_tame env repo (spreadRevision args0.lhs)
        (spreadRevision args0.rhs) (spreadShowOptions args0.showOptions) args0.line
      rw [hE] at htame
      simp only at htame
      cases res with
      | ok r => simpa using all_imp tame_imp_writeShaTitleOnly tr htame
      | error u =>
        simp only [List.all_append]
        have h1 := all_imp tame_imp_writeShaTitleOnly tr htame
        simp [h1, writeShaTitleOnly]

/-- C9.  No write in any run ever targets one of the caller's original
`lhs`/`rhs`/`showOptions` objects: lines 92-97 take shallow copies of the
request and of those three sub-objects, and every subsequent mutation of
revision, label, or display options targets only the per-invocation
copies, so the caller's argument object is left unchanged. -/
theorem c9_caller_request_never_mutated (env : Env) (args0 : DiffWithCommandArgs) :
    ((execute env args0).2).all noOrigWrite = true := by
  cases h : args0.repoPath with
  | none => rw [execute_eq_noop env args0 h]; rfl
  | some repo =>
    rw [execute_eq_of_try env args0 repo h]
    cases hE : executeTry env repo (spreadRevision args0.lhs) (spreadRevision args0.rhs)
        (spreadShowOptions args0.showOptions) args0.line with
    | mk res tr =>
      have htame := executeTry_tame env repo (spreadRevision args0.lhs)
        (spreadRevision args0.rhs) (spreadShowOptions args0.showOptions) args0.line
      rw [hE] at htame
      simp only at htame
      cases res with
      | ok r => simpa using all_imp tame_imp_noOrigWrite tr htame
      | error u =>
        simp only [List.all_append]
        have h1 := all_imp tame_imp_noOrigWrite tr htame
        simp [h1, noOrigWrite]

/-- C3.  When the right side's resolved revision `rSha` is concrete
(non-empty and not the missing sentinel) and the status lookup reports the
file deleted (`'D'`) at that revision, then — given the spec's collaborator
contracts that the missing sentinel has no content, is not the
working-copy marker, and that the prior right working revision has a
non-empty shortened form — (a) the right side's revision is overwritten
with the missing sentinel, which is the revision the right content
acquisition is invoked with; (b) the derived right suffix is exactly
`"deleted in "` followed by the shortened prior working revision
(`rhsSha`, the pre-classification value, i.e. the request's original right
revision `r0.sha`); and (c) the viewer receives the placeholder reference
built from the missing sentinel for the right side. -/
theorem c3_deleted_status_overrides_right_revision (env : Env) (repo : String)
    (l0 r0 : ArgsRevision) (lu ru : Uri) (lineOpt : Option Nat) (so0 : ShowOptions)
    (lSha rSha : String) (lhsRef : Option Uri)
    (hlu : l0.uri = some lu) (hru : r0.uri = some ru)
    (h1 : env.resolveReference repo l0.sha l0.uri = Except.ok lSha)
    (h2 : env.resolveReference repo r0.sha r0.uri = Except.ok rSha)
    (hne : rSha ≠ "") (hnd : rSha ≠ deletedOrMissingSha)
    (hst : env.getFileStatusForCommit repo ru.fsPath rSha = Except.ok (some ⟨'D'⟩))
    (hvl : env.getVersionedUri repo lu.fsPath lSha = Except.ok lhsRef)
    (hvr : env.getVersionedUri repo ru.fsPath deletedOrMissingSha = Except.ok none)
    (hiu : env.isUncommitted deletedOrMissingSha = false)
    (hbase : rhsSuffixBase env r0.sha ≠ "") :
    Event.versionedCall SideTag.R repo ru.fsPath deletedOrMissingSha ∈
      (execute env ⟨some l0, some r0, some repo, lineOpt, some so0⟩).2 ∧
    (suffixPair env (if lSha ≠ deletedOrMissingSha then some lSha else l0.sha)
      r0.sha lSha deletedOrMissingSha lhsRef none).2 =
      "deleted in " ++ rhsSuffixBase env r0.sha ∧
    ∃ a T s, Event.diffCall a (env.toRevisionUri deletedOrMissingSha ru.fsPath repo) T s ∈
      (execute env ⟨some l0, some r0, some repo, lineOpt, some so0⟩).2 := by
  have hcd : classifyRhs env repo r0.uri rSha r0.sha =
      (Except.ok (deletedOrMissingSha, r0.sha),
       [Event.statusCall repo ru.fsPath rSha, Event.write ObjId.copyRhs Field.sha]) := by
    rw [hru]
    unfold classifyRhs
    simp [hne, hnd, hst, statusIsD]
  refine ⟨?_, ?_, ?_⟩
  · exact execute_mem_of_try env l0 r0 repo lineOpt so0 _
      (executeTry_mem_versionedR env repo l0 r0 so0 lineOpt lu ru lSha rSha
        deletedOrMissingSha r0.sha _ lhsRef none hlu hru h1 h2 hcd hvl hvr)
  · have hne2 : deletedOrMissingSha ≠ "" := by decide
    simp [suffixPair, rhsSuffixOf, hiu, hbase, hne2]
  · have hmem := execFinish_mem_diffCall env repo l0.title r0.title lu ru lSha
      (if lSha ≠ deletedOrMissingSha then some lSha else l0.sha)
      r0.sha deletedOrMissingSha lhsRef none lineOpt so0
    have hsub : diffArgR env repo ru none =
        env.toRevisionUri deletedOrMissingSha ru.fsPath repo := rfl
    rw [hsub] at hmem
    exact ⟨_, _, _, execute_mem_of_try env l0 r0 repo lineOpt so0 _
      (executeTry_mem_of_finish env repo l0 r0 so0 lineOpt lu ru lSha rSha
        deletedOrMissingSha r0.sha _ lhsRef none hlu hru h1 h2 hcd hvl hvr _ hmem)⟩

/-- C6.  On every invocation that reaches delegation, the viewer receives
two defined reference arguments: a side whose content acquisition returned
nothing is replaced by the placeholder reference built from the missing
sentinel, that side's filesystem path, and the repository path
(`Option.getD` states exactly that substitution). -/
theorem c6_viewer_receives_defined_references (env : Env) (repo : String)
    (l0 r0 : ArgsRevision) (lu ru : Uri) (lineOpt : Option Nat) (so0 : ShowOptions)
    (lSha rSha rCur : String) (rVar : Option String) (ct : List Event)
    (lhsRef rhsRef : Option Uri)
    (hlu : l0.uri = some lu) (hru : r0.uri = some ru)
    (h1 : env.resolveReference repo l0.sha l0.uri = Except.ok lSha)
    (h2 : env.resolveReference repo r0.sha r0.uri = Except.ok rSha)
    (hc : classifyRhs env repo r0.uri rSha r0.sha = (Except.ok (rCur, rVar), ct))
    (h3 : env.getVersionedUri repo lu.fsPath lSha = Except.ok lhsRef)
    (h4 : env.getVersionedUri repo ru.fsPath rCur = Except.ok rhsRef) :
    ∃ T s, Event.diffCall
      (lhsRef.getD (env.toRevisionUri deletedOrMissingSha lu.fsPath repo))
      (rhsRef.getD (env.toRevisionUri deletedOrMissingSha ru.fsPath repo)) T s ∈
      (execute env ⟨some l0, some r0, some repo, lineOpt, some so0⟩).2 := by
  have hmem := execFinish_mem_diffCall env repo l0.title r0.title lu ru lSha
    (if lSha ≠ deletedOrMissingSha then some lSha else l0.sha)
    rVar rCur lhsRef rhsRef lineOpt so0
  rw [diffArgL_eq_getD, diffArgR_eq_getD] at hmem
  exact ⟨_, _, execute_mem_of_try env l0 r0 repo lineOpt so0 _
    (executeTry_mem_of_finish env repo l0 r0 so0 lineOpt lu ru lSha rSha
      rCur rVar ct lhsRef rhsRef hlu hru h1 h2 hc h3 h4 _ hmem)⟩

/-- C10.  On every invocation that reaches title assembly with no explicit
override on either side, the right label is always assigned (basename plus
optional parenthesised suffix); the left label stays undefined exactly
when the left content reference is absent and the left suffix is empty, in
which case the combined title handed to the viewer is the right label
alone — in either case the delegated title is a defined string, never
`undefined`. -/
theorem c10_delegated_title_never_undefined (env : Env) (repo : String)
    (l0 r0 : ArgsRevision) (lu ru : Uri) (lineOpt : Option Nat) (so0 : ShowOptions)
    (lSha rSha rCur : String) (rVar : Option String) (ct : List Event)
    (lhsRef rhsRef : Option Uri) (ls rs : String)
    (hlu : l0.uri = some lu) (hru : r0.uri = some ru)
    (h1 : env.resolveReference repo l0.sha l0.uri = Except.ok lSha)
    (h2 : env.resolveReference repo r0.sha r0.uri = Except.ok rSha)
    (hc : classifyRhs env repo r0.uri rSha r0.sha = (Except.ok (rCur, rVar), ct))
    (h3 : env.getVersionedUri repo lu.fsPath lSha = Except.ok lhsRef)
    (h4 : env.getVersionedUri repo ru.fsPath rCur = Except.ok rhsRef)
    (hlt : l0.title = none) (hrt : r0.title = none)
    (hsp : suffixPair env (if lSha ≠ deletedOrMissingSha then some lSha else l0.sha)
      rVar lSha rCur lhsRef rhsRef = (ls, rs)) :
    ∃ a b s, Event.diffCall a b
      (some (if lhsRef = none ∧ ls = ""
        then env.basename ru.fsPath ++ suffixWrap rs
        else env.basename lu.fsPath ++ suffixWrap ls ++ " " ++ arrowLeftRightLong ++
          " " ++ (env.basename ru.fsPath ++ suffixWrap rs))) s ∈
      (execute env ⟨some l0, some r0, some repo, lineOpt, some so0⟩).2 := by
  have htitle : combineTitles
      (lTitleOf env l0.title lu lhsRef
        (suffixPair env (if lSha ≠ deletedOrMissingSha then some lSha else l0.sha)
          rVar lSha rCur lhsRef rhsRef).1)
      (rTitleOf env r0.title ru
        (suffixPair env (if lSha ≠ deletedOrMissingSha then some lSha else l0.sha)
          rVar lSha rCur lhsRef rhsRef).2) =
      some (if lhsRef = none ∧ ls = ""
        then env.basename ru.fsPath ++ suffixWrap rs
        else env.basename lu.fsPath ++ suffixWrap ls ++ " " ++ arrowLeftRightLong ++
          " " ++ (env.basename ru.fsPath ++ suffixWrap rs)) := by
    rw [hlt, hrt, hsp]
    by_cases hca : lhsRef = none ∧ ls = ""
    · simp [lTitleOf, rTitleOf, combineTitles, jsOrString, hca, hca.1, hca.2]
    · have hd : lhsRef ≠ none ∨ ls ≠ "" := by tauto
      simp [lTitleOf, rTitleOf, combineTitles, hca, hd]
  have hmem := execFinish_mem_diffCall env repo l0.title r0.title lu ru lSha
    (if lSha ≠ deletedOrMissingSha then some lSha else l0.sha)
    rVar rCur lhsRef rhsRef lineOpt so0
  rw [htitle] at hmem
  exact ⟨_, _, _, execute_mem_of_try env l0 r0 repo lineOpt so0 _
    (executeTry_mem_of_finish env repo l0 r0 so0 lineOpt lu ru lSha rSha
      rCur rVar ct lhsRef rhsRef hlu hru h1 h2 hc h3 h4 _ hmem)⟩

/-! ## Witnesses: each hypothesis-bearing claim theorem applied at a
concrete input -/

theorem c3_witness :
    Event.versionedCall SideTag.R "/repo" uriB.fsPath deletedOrMissingSha ∈
      (execute envDeleted ⟨some l0W, some r0W, some "/repo", none, some {}⟩).2 ∧
    (suffixPair envDeleted
      (if "lsha" ≠ deletedOrMissingSha then some "lsha" else l0W.sha)
      r0W.sha "lsha" deletedOrMissingSha (some ⟨"/repo/a.ts@lsha"⟩) none).2 =
      "deleted in " ++ rhsSuffixBase envDeleted r0W.sha ∧
    ∃ a T s, Event.diffCall a
      (envDeleted.toRevisionUri deletedOrMissingSha uriB.fsPath "/repo") T s ∈
      (execute envDeleted ⟨some l0W, some r0W, some "/repo", none, some {}⟩).2 :=
  c3_deleted_status_overrides_right_revision envDeleted "/repo" l0W r0W uriA uriB
    none {} "lsha" "rsha" (some ⟨"/repo/a.ts@lsha"⟩) rfl rfl rfl rfl
    (by decide) (by decide) rfl rfl rfl rfl (by decide)

theorem c4_witness :
    suffixPair envBase (some "lsha") (some "rsha") "lsha" "" none (some uriB) =
      ("not in " ++ lhsSuffixBase envBase (some "lsha") "lsha", "") :=
  c4_left_not_in_forces_right_suffix_empty envBase (some "lsha") (some "rsha") "lsha" uriB

theorem c5_witness :
    (suffixPair envBase (some "lsha") (some "rsha") "lsha" "" none none).1 =
      "deleted in " ++ lhsSuffixBase envBase (some "lsha") "lsha" ++ ")" :=
  c5_left_deleted_suffix_trailing_paren envBase (some "lsha") (some "rsha") "lsha"

theorem c6_witness :
    ∃ T s, Event.diffCall
      ((none : Option Uri).getD
        (envLeftAbsent.toRevisionUri deletedOrMissingSha uriA.fsPath "/repo"))
      ((some (⟨"/repo/b.ts@"⟩ : Uri)).getD
        (envLeftAbsent.toRevisionUri deletedOrMissingSha uriB.fsPath "/repo")) T s ∈
      (execute envLeftAbsent ⟨some l0A, some r0A, some "/repo", none, some {}⟩).2 :=
  c6_viewer_receives_defined_references envLeftAbsent "/repo" l0A r0A uriA uriB
    none {} "lsha" "" "" (some "") [] none (some ⟨"/repo/b.ts@"⟩)
    rfl rfl rfl rfl rfl rfl rfl

theorem c7_witness :
    match execute envBase argsNoLhs with
    | (ExecResult.noop, tr) => tr = []
    | (ExecResult.diffed, tr) => tr.all notFailure = true
    | (ExecResult.errorShown m, tr) =>
      m = "Unable to open compare" ∧
      ∃ t, tr = t ++ [Event.logError, Event.showedError "Unable to open compare"] ∧
        t.all notFailure = true :=
  c7_exceptions_caught_all_or_nothing envBase argsNoLhs

theorem c8_witness :
    ((execute envBase argsBothSides).2).all writeShaTitleOnly = true :=
  c8_uri_never_reassigned envBase argsBothSides

theorem c9_witness :
    ((execute envBase argsBothSides).2).all noOrigWrite = true :=
  c9_caller_request_never_mutated envBase argsBothSides

theorem c10_witness :
    ∃ a b s, Event.diffCall a b
      (some (if (none : Option Uri) = none ∧ "not in " ++ lhsSuffixBase envLeftAbsent (some "lsha") "lsha" = ""
        then envLeftAbsent.basename uriB.fsPath ++ suffixWrap ""
        else envLeftAbsent.basename uriA.fsPath ++
          suffixWrap ("not in " ++ lhsSuffixBase envLeftAbsent (some "lsha") "lsha") ++ " " ++
          arrowLeftRightLong ++ " " ++ (envLeftAbsent.basename uriB.fsPath ++ suffixWrap ""))) s ∈
      (execute envLeftAbsent ⟨some l0A, some r0A, some "/repo", none, some {}⟩).2 :=
  c10_delegated_title_never_undefined envLeftAbsent "/repo" l0A r0A uriA uriB
    none {} "lsha" "" "" (some "") [] none (some ⟨"/repo/b.ts@"⟩)
    ("not in " ++ lhsSuffixBase envLeftAbsent (some "lsha") "lsha") ""
    rfl rfl rfl rfl rfl rfl rfl rfl rfl (by decide)

end DiffWith
